import Mathlib

/-!
Verification of the batching and training-control components of the espnet
chainer backend, shallowly embedded in Lean.

Embedded source files:
* espnet/tts/tts_utils.py        (make_batchset)
* espnet/asr/chainer_backend/asr.py   (sum_sqnorm, CustomUpdater.update_core,
                                       CustomConverter.__call__, multi-gpu
                                       subset partitioning and length
                                       equalization in train)
* espnet/nets/chainer_backend/e2e_asr.py  (E2E.__call__ reporting logic,
                                           CTC_LOSS_THRESHOLD)

Modelling conventions:
* Python dicts are embedded as association lists in insertion order
  (dict.items() order).
* random.sample(data.items(), len(data.items())) is modelled by an oracle
  parameter shuffled : List Utt; theorems about the shuffle path hypothesize
  that it is a permutation of the corpus, which is exactly the guarantee
  random.sample gives.
* np.random.randint(low, high, size) is modelled by an oracle stream
  rng : Nat → Nat together with a running counter; any sampled value is
  low + rng i % (high - low).  It fails (like numpy raises ValueError)
  when high ≤ low.
* Python floats are modelled as Option ℚ where none is NaN; finite rounding
  and infinities are idealized away, which is sound for the NaN-propagation
  properties checked here.
* The while-loop of make_batchset is embedded with explicit fuel; fuel
  exhaustion (constructor outOfFuel) models nontermination of the Python
  loop (reachable only with batch_size = 0 in shuffle mode) and is never hit
  in the verified configurations.
* Python ints are embedded as Nat; int(a / b) on nonnegative operands is
  Nat division.
-/

/-- One element of the 'input'/'output' arrays of a data.json record:
a dict carrying a 'shape' list. -/
structure ShapeEntry where
  shape : List Nat
deriving DecidableEq, Repr

/-- One utterance record of data.json: 'input' and 'output' lists of
shape-carrying entries. -/
structure UttRec where
  input : List ShapeEntry
  output : List ShapeEntry
deriving DecidableEq, Repr

/-- An item of data.items(): utterance id paired with its record. -/
abbrev Utt := String × UttRec

/-- Default utterance used for the total array-indexing model
(never actually selected in the verified code paths). -/
def dummyUtt : Utt := ("", ⟨[], []⟩)

/-- The quantity the code calls ilen, read from the JSON field 'output':
the code comments note "input and output are reversed due to the use of
same json as asr" (tts_utils.py lines 44-45 and 68). -/
def uttIlen (u : Utt) : Nat := ((u.2.output.headD ⟨[]⟩).shape.headD 0)

/-- The quantity the code calls olen, read from the JSON field 'input'
(tts_utils.py lines 50-51 and 69). -/
def uttOlen (u : Utt) : Nat := ((u.2.input.headD ⟨[]⟩).shape.headD 0)

/-- Ascending comparison on the code's ilen key (used when shortest_first). -/
def leIlen (a b : Utt) : Prop := uttIlen a ≤ uttIlen b

/-- Descending comparison on the code's ilen key (reverse=True sort). -/
def geIlen (a b : Utt) : Prop := uttIlen b ≤ uttIlen a

/-- Ascending comparison on the code's olen key. -/
def leOlen (a b : Utt) : Prop := uttOlen a ≤ uttOlen b

/-- Descending comparison on the code's olen key. -/
def geOlen (a b : Utt) : Prop := uttOlen b ≤ uttOlen a

instance : DecidableRel leIlen := fun _ _ => Nat.decLe _ _

instance : DecidableRel geIlen := fun _ _ => Nat.decLe _ _

instance : DecidableRel leOlen := fun _ _ => Nat.decLe _ _

instance : DecidableRel geOlen := fun _ _ => Nat.decLe _ _

instance : IsTotal Utt leIlen := ⟨fun _ _ => Nat.le_total _ _⟩

instance : IsTotal Utt geIlen := ⟨fun _ _ => Nat.le_total _ _⟩

instance : IsTotal Utt leOlen := ⟨fun _ _ => Nat.le_total _ _⟩

instance : IsTotal Utt geOlen := ⟨fun _ _ => Nat.le_total _ _⟩

instance : IsTrans Utt leIlen := ⟨fun _ _ _ h h' => Nat.le_trans h h'⟩

instance : IsTrans Utt geIlen := ⟨fun _ _ _ h h' => Nat.le_trans h' h⟩

instance : IsTrans Utt leOlen := ⟨fun _ _ _ h h' => Nat.le_trans h h'⟩

instance : IsTrans Utt geOlen := ⟨fun _ _ _ h h' => Nat.le_trans h' h⟩

/-- sorted(data.items(), key=λd. int(d[1]['output'][0]['shape'][0]),
reverse=not shortest_first): the batch_sort_key='input' sort of
make_batchset (tts_utils.py lines 44-45).  A stable sort; embedded with
insertionSort, which is stable and extensionally agrees with any stable
sort over a total preorder. -/
def sortByInput (data : List Utt) (shortest_first : Bool) : List Utt :=
  if shortest_first then List.insertionSort leIlen data
  else List.insertionSort geIlen data

/-- sorted(data.items(), key=λd. int(d[1]['input'][0]['shape'][0]),
reverse=not shortest_first): the batch_sort_key='output' sort
(tts_utils.py lines 50-51). -/
def sortByOutput (data : List Utt) (shortest_first : Bool) : List Utt :=
  if shortest_first then List.insertionSort leOlen data
  else List.insertionSort geOlen data

/-- Failure modes of make_batchset: the explicit ValueError for a bad sort
key (line 53), the explicit ValueError for a too-small corpus (line 58),
numpy's ValueError from np.random.randint(0, 0, ...) (line 84), an
IndexError from sorted_data[start] (line 68, unreachable from the public
entry), and fuel exhaustion modelling nontermination. -/
inductive BatchsetError where
  | invalidSortKey
  | corpusTooSmall
  | randintEmptyRange
  | indexOutOfRange
  | outOfFuel
deriving DecidableEq, Repr

deriving instance DecidableEq for Except

/-- np.random.randint(low, high, size): size samples in [low, high),
driven by the oracle stream rng starting at counter ctr; raises when the
range is empty, as numpy does. -/
def npRandint (rng : Nat → Nat) (ctr low high size : Nat) :
    Except BatchsetError (List Nat) :=
  if low < high then
    Except.ok ((List.range size).map (fun j => low + rng (ctr + j) % (high - low)))
  else Except.error BatchsetError.randintEmptyRange

/-- The adaptive batch size computed at a window start for the sorted keys
(tts_utils.py lines 68-75): factor = max(int(ilen/max_length_in),
int(olen/max_length_out)) from the window's first element, then
bs = max(1, int(batch_size/(1+factor))). -/
def adaptive_bs (sd : List Utt) (batch_size max_length_in max_length_out start : Nat) :
    Nat :=
  let ilen := uttIlen (sd.getD start dummyUtt)
  let olen := uttOlen (sd.getD start dummyUtt)
  let factor := max (ilen / max_length_in) (olen / max_length_out)
  max 1 (batch_size / (1 + factor))

/-- The window width used at a given start: plain batch_size for 'shuffle'
(line 65), the adaptive size otherwise (lines 68-76). -/
def window_bs (sd : List Utt) (batch_size max_length_in max_length_out : Nat)
    (batch_sort_key : String) (start : Nat) : Nat :=
  if batch_sort_key = "shuffle" then batch_size
  else adaptive_bs sd batch_size max_length_in max_length_out start

/-- The minimum-batch-size padding step of make_batchset (tts_utils.py
lines 82-87): when the (possibly reversed) window mb1 is shorter than
min_batch_size, draw mod = min_batch_size - len(mb1) % min_batch_size
indices from np.random.randint(0, start, mod), look the sampled entries up
in sorted_data, reverse them if shortest_first, and append them.  Returns
the padded minibatch together with the advanced rng counter. -/
def pad_minibatch (sd : List Utt) (min_batch_size : Nat) (shortest_first : Bool)
    (rng : Nat → Nat) (start ctr : Nat) (mb1 : List Utt) :
    Except BatchsetError (List Utt × Nat) :=
  if mb1.length < min_batch_size then
    match npRandint rng ctr 0 start (min_batch_size - mb1.length % min_batch_size) with
    | Except.error e => Except.error e
    | Except.ok idxs =>
      let additional := idxs.map (fun i => sd.getD i dummyUtt)
      Except.ok (mb1 ++ (if shortest_first then additional.reverse else additional),
        ctr + (min_batch_size - mb1.length % min_batch_size))
  else Except.ok (mb1, ctr)

/-- The (possibly reversed) window sorted_data[start:end] that one loop
iteration slices before padding (tts_utils.py lines 76-81). -/
def window_core (sd : List Utt) (batch_size max_length_in max_length_out : Nat)
    (batch_sort_key : String) (shortest_first : Bool) (start : Nat) : List Utt :=
  let endd := min sd.length
    (start + window_bs sd batch_size max_length_in max_length_out batch_sort_key start)
  let mb0 := (sd.drop start).take (endd - start)
  if shortest_first then mb0.reverse else mb0

/-- The while True loop of make_batchset (tts_utils.py lines 62-92), with
explicit fuel.  Each iteration: compute end from the window width, slice
minibatch = sorted_data[start:end], reverse it if shortest_first, pad it
with samples from [0, start) when shorter than min_batch_size, append, and
stop when end reaches the corpus size. -/
def batchLoop (sd : List Utt) (batch_size max_length_in max_length_out : Nat)
    (batch_sort_key : String) (min_batch_size : Nat) (shortest_first : Bool)
    (rng : Nat → Nat) :
    Nat → Nat → Nat → Except BatchsetError (List (List Utt))
  | 0, _, _ => Except.error BatchsetError.outOfFuel
  | fuel + 1, start, ctr =>
    if batch_sort_key ≠ "shuffle" ∧ sd.length ≤ start then
      Except.error BatchsetError.indexOutOfRange
    else
      let endd := min sd.length
        (start + window_bs sd batch_size max_length_in max_length_out batch_sort_key start)
      let mb0 := (sd.drop start).take (endd - start)
      let mb1 := if shortest_first then mb0.reverse else mb0
      match pad_minibatch sd min_batch_size shortest_first rng start ctr mb1 with
      | Except.error e => Except.error e
      | Except.ok (mb, ctr') =>
        if endd = sd.length then Except.ok [mb]
        else
          match batchLoop sd batch_size max_length_in max_length_out batch_sort_key
              min_batch_size shortest_first rng fuel endd ctr' with
          | Except.error e => Except.error e
          | Except.ok rest => Except.ok (mb :: rest)

/-- The sort dispatch of make_batchset (tts_utils.py lines 37-53): 'shuffle'
consumes the random.sample oracle, 'input'/'output' sort deterministically,
anything else raises ValueError. -/
def sorted_for (data : List Utt) (batch_sort_key : String) (shortest_first : Bool)
    (shuffled : List Utt) : Except BatchsetError (List Utt) :=
  if batch_sort_key = "shuffle" then Except.ok shuffled
  else if batch_sort_key = "input" then Except.ok (sortByInput data shortest_first)
  else if batch_sort_key = "output" then Except.ok (sortByOutput data shortest_first)
  else Except.error BatchsetError.invalidSortKey

/-- make_batchset (tts_utils.py lines 23-99): sort dispatch, corpus-size
check, minibatch loop, then the num_batches debug truncation. -/
def make_batchset (data : List Utt) (batch_size max_length_in max_length_out : Nat)
    (num_batches : Nat) (batch_sort_key : String) (min_batch_size : Nat)
    (shortest_first : Bool) (shuffled : List Utt) (rng : Nat → Nat) :
    Except BatchsetError (List (List Utt)) :=
  match sorted_for data batch_sort_key shortest_first shuffled with
  | Except.error e => Except.error e
  | Except.ok sd =>
    if sd.length < min_batch_size then Except.error BatchsetError.corpusTooSmall
    else
      match batchLoop sd batch_size max_length_in max_length_out batch_sort_key
          min_batch_size shortest_first rng (sd.length + 1) 0 0 with
      | Except.error e => Except.error e
      | Except.ok minibatches =>
        Except.ok (if 0 < num_batches then minibatches.take num_batches else minibatches)

/-- Idealized IEEE scalar: none is NaN, some q a finite value. -/
abbrev RFloat := Option ℚ

/-- NaN-propagating addition. -/
def rAdd : RFloat → RFloat → RFloat
  | some a, some b => some (a + b)
  | _, _ => none

/-- NaN-propagating multiplication. -/
def rMul : RFloat → RFloat → RFloat
  | some a, some b => some (a * b)
  | _, _ => none

/-- math.isnan. -/
def rIsNaN (x : RFloat) : Bool := x.isNone

/-- IEEE comparison x < c: false whenever x is NaN. -/
def rLt (x : RFloat) (c : ℚ) : Bool :=
  match x with
  | none => false
  | some q => decide (q < c)

/-- x.ravel().dot(x): the sum of squares of one gradient buffer
(asr.py line 67). -/
def rDot (v : List RFloat) : RFloat :=
  v.foldl (fun acc x => rAdd acc (rMul x x)) (some 0)

/-- sum_sqnorm (asr.py lines 61-69): sums the squared entries of every
non-None gradient array.  The per-device partial sums of the source add up
to the same total. -/
def sum_sqnorm (arr : List (Option (List RFloat))) : RFloat :=
  arr.foldl (fun acc g =>
    match g with
    | none => acc
    | some v => rAdd acc (rDot v)) (some 0)

/-- CustomUpdater.update_core, gradient-check and update part
(asr.py lines 95-102; identically lines 143-152 in
CustomParallelUpdater.update_core): grad_norm = np.sqrt(sum_sqnorm grads);
if math.isnan(grad_norm) skip, else run optimizer.update() once.  Since the
argument of sqrt is a sum of squares (hence NaN or nonnegative),
math.isnan(np.sqrt s) = isNaN s, so the embedded check tests the sum
directly.  The result pairs the post-call parameter values with the number
of optimizer.update() invocations. -/
def update_core_params (params : List RFloat) (grads : List (Option (List RFloat)))
    (optimizer_update : List RFloat → List RFloat) : List RFloat × Nat :=
  if rIsNaN (sum_sqnorm grads) then (params, 0)
  else (optimizer_update params, 1)

/-- CTC_LOSS_THRESHOLD (e2e_asr.py line 23). -/
def CTC_LOSS_THRESHOLD : ℚ := 10000

/-- The multitask loss combination of E2E.__call__
(e2e_asr.py lines 100-106). -/
def mtl_loss (alpha : ℚ) (loss_ctc loss_att : RFloat) : RFloat :=
  if alpha = 0 then loss_att
  else if alpha = 1 then loss_ctc
  else rAdd (rMul (some alpha) loss_ctc) (rMul (some (1 - alpha)) loss_att)

/-- Result of one E2E.__call__ with flag_return=False: the returned loss
and the optionally produced reporter side effect
(loss_ctc, loss_att, acc, loss). -/
structure E2ECallResult where
  returned : RFloat
  reported : Option (RFloat × RFloat × RFloat × RFloat)
deriving DecidableEq

/-- E2E.__call__, loss combination and reporting (e2e_asr.py lines
100-120): metrics are reported only when
self.loss.data < CTC_LOSS_THRESHOLD and not math.isnan(self.loss.data);
the loss is returned either way. -/
def E2E_call (alpha : ℚ) (loss_ctc loss_att acc : RFloat) : E2ECallResult :=
  let loss := mtl_loss alpha loss_ctc loss_att
  if rLt loss CTC_LOSS_THRESHOLD && !(rIsNaN loss) then
    { returned := loss, reported := some (loss_ctc, loss_att, acc, loss) }
  else
    { returned := loss, reported := none }

/-- The per-device corpus shard of the multi-gpu path (asr.py lines
280-281): keep the utterances whose enumeration index i satisfies
i % ngpu == gid. -/
def train_json_subset (train_json : List Utt) (ngpu gid : Nat) : List Utt :=
  ((train_json.enum).filter (fun p => p.1 % ngpu == gid)).map Prod.snd

/-- The shard-length equalization of the multi-gpu path (asr.py lines
287-291): for i in range(maxlen - len(subset)): subset += [subset[i]].
Each step appends an element read from the growing list, so the appended
tail cycles through the original batches. -/
def equalize_subset (subset : List α) (d : α) (maxlen : Nat) : List α :=
  (List.range (maxlen - subset.length)).foldl (fun acc i => acc ++ [acc.getD i d]) subset

/-- x[::k] on the frame axis, implemented with a skip counter: keep the
element when the counter is 0, else skip and decrement; the counter resets
to k - 1 after a kept element. -/
def strideGo (k : Nat) : Nat → List α → List α
  | _, [] => []
  | 0, x :: t => x :: strideGo k (k - 1) t
  | Nat.succ n, _ :: t => strideGo k n t

/-- x[::k]: every k-th frame starting at 0 (asr.py line 184). -/
def strideSlice (k : Nat) (l : List α) : List α := strideGo k 0 l

/-- AssertionError of the CustomConverter.__call__ wrapper check. -/
inductive ConvError where
  | assertionError
deriving DecidableEq, Repr

/-- One raw example group as produced by the transform: the list of input
arrays (frames, each a row of rationals) and the list of target id
sequences. -/
abbrev RawBatch := List (List (List ℚ)) × List (List Int)

/-- The DeviceBatch triple returned by the converter: inputs, per-example
input lengths, targets.  Variable wrapping and dtype casts are identities
in the model; device placement is dropped. -/
structure DeviceBatch where
  xs : List (List (List ℚ))
  ilens : List Nat
  ys : List (List Int)
deriving DecidableEq

/-- CustomConverter.__call__ (asr.py lines 174-194): assert the outer
wrapper holds exactly one pre-grouped batch, subsample every input with
stride subsampling_factor when it exceeds 1, then read the per-example
(post-subsampling) lengths. -/
def CustomConverter_call (subsampling_factor : Nat) (batch : List RawBatch) :
    Except ConvError DeviceBatch :=
  if batch.length = 1 then
    let xs0 := (batch.headD ([], [])).1
    let ys := (batch.headD ([], [])).2
    let xs := if 1 < subsampling_factor then xs0.map (strideSlice subsampling_factor)
      else xs0
    let ilens := xs.map List.length
    Except.ok ⟨xs, ilens, ys⟩
  else Except.error ConvError.assertionError

/-- Example utterance with ilen field (JSON 'output' shape) 100. -/
def exU1 : Utt := ("u1", ⟨[⟨[1, 1]⟩], [⟨[100, 80]⟩]⟩)

/-- Example utterance with ilen field (JSON 'output' shape) 50. -/
def exU2 : Utt := ("u2", ⟨[⟨[1, 1]⟩], [⟨[50, 80]⟩]⟩)

/-- The two-utterance corpus of the spec's end-to-end example. -/
def exCorpus2 : List Utt := [exU1, exU2]

/-- An utterance with the given id and unit lengths. -/
def mkExU (name : String) : Utt := (name, ⟨[⟨[1, 1]⟩], [⟨[10, 1]⟩]⟩)

/-- A four-utterance corpus. -/
def exCorpus4 : List Utt := [mkExU "a", mkExU "b", mkExU "c", mkExU "d"]

/-- A two-utterance corpus with unit lengths. -/
def exCorpus2b : List Utt := [mkExU "a", mkExU "b"]

/-- The all-zero rng oracle: every randint draw yields the low bound. -/
def rngZero : Nat → Nat := fun _ => 0

/-- Inversion for a successful randint draw: the sample list has the
requested size and every sample is below the exclusive bound. -/
theorem npRandint_ok_inv {rng : Nat → Nat} {ctr start size : Nat} {idxs : List Nat}
    (h : npRandint rng ctr 0 start size = Except.ok idxs) :
    idxs.length = size ∧ ∀ i ∈ idxs, i < start := by
  unfold npRandint at h
  split at h
  · rename_i hpos
    cases h
    constructor
    · simp
    · intro i hi
      simp only [List.mem_map, List.mem_range] at hi
      obtain ⟨j, _, rfl⟩ := hi
      simpa using Nat.mod_lt (rng (ctr + j)) (by simpa using hpos)
  · cases h

/-- Decomposition of a successful padding step: the result is the window
followed by looked-up sampled entries, all of whose indices are strictly
below start; the sample count is exactly mod = mbs - len % mbs when the
window underflows, and empty otherwise. -/
theorem pad_minibatch_ok_decomp {sd : List Utt} {mbs : Nat} {sf : Bool} {rng : Nat → Nat}
    {start ctr : Nat} {mb1 mb : List Utt} {ctr2 : Nat}
    (h : pad_minibatch sd mbs sf rng start ctr mb1 = Except.ok (mb, ctr2)) :
    ∃ idxs : List Nat, (∀ i ∈ idxs, i < start) ∧
      mb = mb1 ++ (if sf then (idxs.map (fun i => sd.getD i dummyUtt)).reverse
        else idxs.map (fun i => sd.getD i dummyUtt)) ∧
      (mb1.length < mbs → idxs.length = mbs - mb1.length % mbs) ∧
      (mbs ≤ mb1.length → idxs = []) := by
  unfold pad_minibatch at h
  split at h
  · rename_i hlt
    cases hr : npRandint rng ctr 0 start (mbs - mb1.length % mbs) with
    | error e => rw [hr] at h; cases h
    | ok idxs =>
      rw [hr] at h
      cases h
      obtain ⟨hlen, hmem⟩ := npRandint_ok_inv hr
      exact ⟨idxs, hmem, rfl, fun _ => hlen, fun hge => absurd hge (Nat.not_le.mpr hlt)⟩
  · rename_i hge
    cases h
    refine ⟨[], by simp, by cases sf <;> simp, fun hlt => absurd hlt hge, fun _ => rfl⟩

/-- A successful padding step always yields at least min_batch_size
elements. -/
theorem pad_minibatch_ok_length {sd : List Utt} {mbs : Nat} {sf : Bool} {rng : Nat → Nat}
    {start ctr : Nat} {mb1 mb : List Utt} {ctr2 : Nat}
    (h : pad_minibatch sd mbs sf rng start ctr mb1 = Except.ok (mb, ctr2)) :
    mbs ≤ mb.length := by
  obtain ⟨idxs, _, hdecomp, hlt, hge⟩ := pad_minibatch_ok_decomp h
  have hpadlen : (if sf then (idxs.map (fun i => sd.getD i dummyUtt)).reverse
      else idxs.map (fun i => sd.getD i dummyUtt)).length = idxs.length := by
    cases sf <;> simp
  by_cases hc : mb1.length < mbs
  · have hlen := hlt hc
    have hmod : mb1.length % mbs = mb1.length := Nat.mod_eq_of_lt hc
    rw [hdecomp, List.length_append, hpadlen, hlen, hmod]
    omega
  · rw [hdecomp, List.length_append, hpadlen]
    omega

/-- A window already reaching min_batch_size is passed through unpadded. -/
theorem pad_minibatch_ok_of_ge {sd : List Utt} {mbs : Nat} {sf : Bool} {rng : Nat → Nat}
    {start ctr : Nat} {mb1 : List Utt} (h : mbs ≤ mb1.length) :
    pad_minibatch sd mbs sf rng start ctr mb1 = Except.ok (mb1, ctr) := by
  unfold pad_minibatch
  rw [if_neg (Nat.not_lt.mpr h)]

/-- With a positive start offset the padding step cannot fail. -/
theorem pad_minibatch_ok_of_pos {sd : List Utt} {mbs : Nat} {sf : Bool} {rng : Nat → Nat}
    {start ctr : Nat} {mb1 : List Utt} (h : 0 < start) :
    ∃ mb ctr2, pad_minibatch sd mbs sf rng start ctr mb1 = Except.ok (mb, ctr2) := by
  unfold pad_minibatch
  split
  · simp only [npRandint, if_pos h]
    exact ⟨_, _, rfl⟩
  · exact ⟨_, _, rfl⟩

/-- At start offset 0 an underfull window makes the padding step raise:
np.random.randint(0, 0, mod) has an empty range. -/
theorem pad_minibatch_error_at_zero {sd : List Utt} {mbs : Nat} {sf : Bool}
    {rng : Nat → Nat} {ctr : Nat} {mb1 : List Utt} (h : mb1.length < mbs) :
    pad_minibatch sd mbs sf rng 0 ctr mb1 = Except.error BatchsetError.randintEmptyRange := by
  unfold pad_minibatch
  rw [if_pos h]
  unfold npRandint
  rw [if_neg (by omega)]

/-- C3: in CustomUpdater.update_core (and identically in
CustomParallelUpdater.update_core), a NaN gradient norm skips the
optimizer step entirely — the parameter values after the call are the very
values from before and optimizer.update() is called zero times — while a
non-NaN norm invokes optimizer.update() exactly once. -/
theorem C3_nan_grad_skips_update (params : List RFloat)
    (grads : List (Option (List RFloat))) (optimizer_update : List RFloat → List RFloat) :
    (rIsNaN (sum_sqnorm grads) = true →
      update_core_params params grads optimizer_update = (params, 0)) ∧
    (rIsNaN (sum_sqnorm grads) = false →
      update_core_params params grads optimizer_update = (optimizer_update params, 1)) := by
  constructor <;> intro h <;> simp [update_core_params, h]

/-- Witness for C3: a gradient buffer containing a NaN entry leaves the
parameters untouched; a finite buffer triggers exactly one update. -/
theorem C3_witness :
    update_core_params [some 1] [some [none]] id = ([some 1], 0) ∧
    update_core_params [some 1] [some [some 2]] id = ([some 1], 1) := by
  constructor
  · exact (C3_nan_grad_skips_update [some 1] [some [none]] id).1 (by decide)
  · exact (C3_nan_grad_skips_update [some 1] [some [some 2]] id).2 (by decide)

/-- C7: in E2E.__call__, a loss strictly above CTC_LOSS_THRESHOLD = 10000
or equal to NaN suppresses only the reporter side effect; the loss is
computed and returned unchanged in every case, and no update/skip decision
is taken here. -/
theorem C7_loss_threshold_suppresses_report_only (alpha : ℚ)
    (loss_ctc loss_att acc : RFloat) :
    (E2E_call alpha loss_ctc loss_att acc).returned = mtl_loss alpha loss_ctc loss_att ∧
    ((∃ q, mtl_loss alpha loss_ctc loss_att = some q ∧ CTC_LOSS_THRESHOLD < q) ∨
        mtl_loss alpha loss_ctc loss_att = none →
      (E2E_call alpha loss_ctc loss_att acc).reported = none) := by
  constructor
  · unfold E2E_call
    dsimp only
    split <;> rfl
  · intro h
    unfold E2E_call
    rcases h with ⟨q, hq, hgt⟩ | hnan
    · rw [hq]
      have : rLt (some q) CTC_LOSS_THRESHOLD = false := by
        simp [rLt]
        linarith
      simp [this]
    · rw [hnan]
      simp [rLt]

/-- Witness for C7: with mtlalpha = 1/2, loss_ctc = loss_att = 30000 the
combined loss is 30000 > 10000: nothing is reported yet the loss is
returned; the same with a NaN attention loss. -/
theorem C7_witness :
    (E2E_call (1/2) (some 30000) (some 30000) (some 1)).returned = some 30000 ∧
    (E2E_call (1/2) (some 30000) (some 30000) (some 1)).reported = none ∧
    (E2E_call (1/2) (some 30000) none (some 1)).reported = none := by
  have hmtl : mtl_loss (1/2) (some 30000) (some 30000) = some 30000 := by
    norm_num [mtl_loss, rAdd, rMul]
  have hmtl2 : mtl_loss (1/2) (some 30000) none = none := by
    norm_num [mtl_loss, rAdd, rMul]
  refine ⟨?_, ?_, ?_⟩
  · rw [(C7_loss_threshold_suppresses_report_only (1/2) (some 30000) (some 30000) (some 1)).1,
      hmtl]
  · exact (C7_loss_threshold_suppresses_report_only (1/2) (some 30000) (some 30000) (some 1)).2
      (Or.inl ⟨30000, hmtl, by norm_num [CTC_LOSS_THRESHOLD]⟩)
  · exact (C7_loss_threshold_suppresses_report_only (1/2) (some 30000) none (some 1)).2
      (Or.inr hmtl2)

/-- Length of the stride traversal: with skip counter c, out of the
remaining frames every k-th one starting after c skips is kept. -/
theorem strideGo_length {α : Type} (k : Nat) (l : List α) :
    ∀ (c : Nat), c < k → (strideGo k c l).length = (l.length + (k - 1 - c)) / k := by
  induction l with
  | nil =>
    intro c hc
    simp only [strideGo, List.length_nil, Nat.zero_add]
    exact (Nat.div_eq_of_lt (by omega)).symm
  | cons x t ih =>
    intro c hc
    cases c with
    | zero =>
      simp only [strideGo, List.length_cons]
      rw [ih (k - 1) (by omega)]
      have h1 : k - 1 - (k - 1) = 0 := by omega
      have h2 : t.length + 1 + (k - 1 - 0) = t.length + k := by omega
      rw [h1, h2, Nat.add_zero, Nat.add_div_right _ (by omega : 0 < k)]
      simp
    | succ n =>
      simp only [strideGo, List.length_cons]
      rw [ih n (by omega)]
      have h2 : t.length + 1 + (k - 1 - (n + 1)) = t.length + (k - 1 - n) := by omega
      rw [h2]

/-- Element access of the stride traversal: position j of the result is
position c + j * k of the source. -/
theorem strideGo_getElem {α : Type} (k : Nat) (l : List α) :
    ∀ (c j : Nat), c < k → (strideGo k c l)[j]? = l[c + j * k]? := by
  induction l with
  | nil =>
    intro c j _
    simp [strideGo]
  | cons x t ih =>
    intro c j hc
    cases c with
    | zero =>
      cases j with
      | zero => simp [strideGo]
      | succ m =>
        simp only [strideGo]
        rw [List.getElem?_cons_succ, ih (k - 1) m (by omega)]
        have h1 : 0 + (m + 1) * k = (k - 1 + m * k) + 1 := by
          have : (m + 1) * k = m * k + k := by ring
          omega
        rw [h1, List.getElem?_cons_succ]
    | succ n =>
      simp only [strideGo]
      rw [ih n j (by omega)]
      have h1 : n + 1 + j * k = (n + j * k) + 1 := by omega
      rw [h1, List.getElem?_cons_succ]

/-- x[::k] keeps ceil(len/k) frames. -/
theorem strideSlice_length {α : Type} (k : Nat) (hk : 0 < k) (l : List α) :
    (strideSlice k l).length = (l.length + (k - 1)) / k := by
  unfold strideSlice
  rw [strideGo_length k l 0 hk, Nat.sub_zero]

/-- x[::k] at position j is the source frame at position j * k. -/
theorem strideSlice_getElem {α : Type} (k : Nat) (hk : 0 < k) (l : List α) (j : Nat) :
    (strideSlice k l)[j]? = l[j * k]? := by
  unfold strideSlice
  rw [strideGo_getElem k l 0 j hk]
  simp

/-- C9: CustomConverter.__call__ rejects any outer wrapper whose length is
not exactly 1; for subsampling_factor k > 1 it keeps every k-th frame of
each input sequence (pure stride), and the returned ilens vector holds the
post-subsampling, pre-padding row count ceil(T_i / k) of each input. -/
theorem C9_converter_contract (k : Nat) (hk : 1 < k) :
    (∀ batch : List RawBatch, batch.length ≠ 1 →
      CustomConverter_call k batch = Except.error ConvError.assertionError) ∧
    (∀ (xs0 : List (List (List ℚ))) (ys : List (List Int)) (db : DeviceBatch),
      CustomConverter_call k [(xs0, ys)] = Except.ok db →
      db.ilens = xs0.map (fun x => (x.length + (k - 1)) / k) ∧
      db.ys = ys ∧
      ∀ i j, (db.xs.getD i [])[j]? = (xs0.getD i [])[j * k]?) := by
  constructor
  · intro batch h
    unfold CustomConverter_call
    rw [if_neg h]
  · intro xs0 ys db hdb
    unfold CustomConverter_call at hdb
    have hl : ([(xs0, ys)] : List RawBatch).length = 1 := rfl
    rw [if_pos hl] at hdb
    dsimp only [List.headD] at hdb
    rw [if_pos hk] at hdb
    cases hdb
    refine ⟨?_, rfl, ?_⟩
    · rw [List.map_map]
      exact List.map_congr_left (fun x _ => by
        simp only [Function.comp]
        exact strideSlice_length k (by omega) x)
    · intro i j
      rcases h : xs0[i]? with _ | x
      · have h2 : (xs0.map (strideSlice k))[i]? = none := by
          rw [List.getElem?_map, h]
          rfl
        rw [List.getD_eq_getElem?_getD, h2, List.getD_eq_getElem?_getD, h]
        simp
      · have h2 : (xs0.map (strideSlice k))[i]? = some (strideSlice k x) := by
          rw [List.getElem?_map, h]
          rfl
        rw [List.getD_eq_getElem?_getD, h2, List.getD_eq_getElem?_getD, h]
        simp only [Option.getD_some]
        exact strideSlice_getElem k (by omega) x j

/-- Witness for C9: with k = 2 on a 5-frame input, frames 0, 2, 4 are kept
and ilens reports ceil(5/2) = 3; a 2-element wrapper is rejected. -/
theorem C9_witness :
    (⟨[[[1], [3], [5]]], [3], [[7]]⟩ : DeviceBatch).ilens =
      [[[(1 : ℚ)], [2], [3], [4], [5]]].map (fun x => (x.length + (2 - 1)) / 2) ∧
    CustomConverter_call 2 [([], []), ([], [])] = Except.error ConvError.assertionError :=
  ⟨((C9_converter_contract 2 (by omega)).2 [[[1], [2], [3], [4], [5]]] [[7]]
      ⟨[[[1], [3], [5]]], [3], [[7]]⟩ rfl).1,
    (C9_converter_contract 2 (by omega)).1 [([], []), ([], [])] (by decide)⟩

/-- Splitting a pointwise append inside a flattened map, up to
permutation. -/
theorem flatten_map_append_perm {α β : Type} (f g : β → List α) (r : List β) :
    ((r.map (fun x => f x ++ g x)).flatten).Perm ((r.map f).flatten ++ (r.map g).flatten) := by
  classical
  rw [List.perm_iff_count]
  intro a
  induction r with
  | nil => simp
  | cons b r ih =>
    simp only [List.map_cons, List.flatten_cons, List.count_append] at ih ⊢
    omega

/-- The indicator flattening: a range scan that emits [x] only at position
k produces exactly [x] when k is inside the range. -/
theorem flatten_map_single_eq {α : Type} (x : α) (k : Nat) :
    ∀ g : Nat, k < g →
      (((List.range g).map (fun gid => if (k == gid) = true then [x] else [])).flatten) = [x] := by
  intro g
  induction g with
  | zero => omega
  | succ n ih =>
    intro hk
    rw [List.range_succ, List.map_append, List.flatten_append]
    by_cases hkn : k < n
    · rw [ih hkn]
      simp [Nat.ne_of_lt hkn]
    · have hkeq : k = n := by omega
      have hnil : (((List.range n).map (fun gid => if (k == gid) = true then [x] else [])).flatten) = [] := by
        apply List.flatten_eq_nil_iff.mpr
        intro l hl
        simp only [List.mem_map, List.mem_range] at hl
        obtain ⟨gid, hgid, rfl⟩ := hl
        have hne : ¬ k = gid := by omega
        simp [hne]
      rw [hnil]
      simp [hkeq]

/-- The ngpu residue-class shards of an enumerated list, taken together,
are a permutation of the list, for any enumeration offset. -/
theorem shards_perm (g : Nat) (hg : 0 < g) (l : List Utt) :
    ∀ off : Nat,
      (((List.range g).map (fun gid =>
        ((l.enumFrom off).filter (fun p => p.1 % g == gid)).map Prod.snd)).flatten).Perm l := by
  induction l with
  | nil => intro off; simp
  | cons x t ih =>
    intro off
    have hstep : ∀ gid : Nat,
        ((((off, x) :: t.enumFrom (off + 1)).filter (fun p => p.1 % g == gid)).map Prod.snd) =
        (if (off % g == gid) = true then [x] else []) ++
          ((t.enumFrom (off + 1)).filter (fun p => p.1 % g == gid)).map Prod.snd := by
      intro gid
      rw [List.filter_cons]
      by_cases hc : (off % g == gid) = true
      · simp only [hc, if_true, List.map_cons, List.cons_append, List.nil_append]
      · simp only [hc]
        simp at hc
        simp [hc]
    rw [List.enumFrom_cons]
    have hmapeq : (List.range g).map (fun gid =>
        ((((off, x) :: t.enumFrom (off + 1)).filter (fun p => p.1 % g == gid)).map Prod.snd)) =
        (List.range g).map (fun gid => (if (off % g == gid) = true then [x] else []) ++
          ((t.enumFrom (off + 1)).filter (fun p => p.1 % g == gid)).map Prod.snd) :=
      List.map_congr_left (fun gid _ => hstep gid)
    rw [hmapeq]
    refine (flatten_map_append_perm _ _ _).trans ?_
    rw [flatten_map_single_eq x (off % g) g (Nat.mod_lt off hg)]
    exact List.Perm.append (List.Perm.refl [x]) (ih (off + 1))

/-- Invariant of the equalization loop: after m append steps the list has
grown by m elements and reads cyclically from the original list. -/
theorem equalize_invariant {α : Type} (l : List α) (d : α) (hl : l ≠ []) :
    ∀ m : Nat,
      ((List.range m).foldl (fun acc i => acc ++ [acc.getD i d]) l).length = l.length + m ∧
      ∀ j, j < l.length + m →
        ((List.range m).foldl (fun acc i => acc ++ [acc.getD i d]) l)[j]? = l[j % l.length]? := by
  have hn : 0 < l.length := List.length_pos.mpr hl
  intro m
  induction m with
  | zero =>
    refine ⟨by simp, ?_⟩
    intro j hj
    simp only [List.range_zero, List.foldl_nil]
    rw [Nat.mod_eq_of_lt (by omega)]
  | succ m ih =>
    obtain ⟨ihlen, ihget⟩ := ih
    rw [List.range_succ, List.foldl_append]
    constructor
    · simp only [List.foldl_cons, List.foldl_nil, List.length_append, List.length_cons,
        List.length_nil]
      rw [ihlen]
      omega
    · intro j hj
      set P := (List.range m).foldl (fun acc i => acc ++ [acc.getD i d]) l with hP
      simp only [List.foldl_cons, List.foldl_nil]
      by_cases hjm : j < l.length + m
      · rw [List.getElem?_append_left (by omega : j < P.length)]
        exact ihget j hjm
      · have hjeq : j = l.length + m := by omega
        rw [List.getElem?_append_right (by omega : P.length ≤ j)]
        have hPm : P[m]? = l[m % l.length]? := ihget m (by omega)
        have hml : m % l.length < l.length := Nat.mod_lt m hn
        have hPgd : P.getD m d = l[m % l.length] := by
          rw [List.getD_eq_getElem?_getD, hPm, List.getElem?_eq_getElem hml]
          rfl
        have hidx : j - P.length = 0 := by omega
        rw [hidx]
        simp only [List.getElem?_cons_zero]
        rw [hPgd, hjeq]
        rw [Nat.add_mod_left l.length m, List.getElem?_eq_getElem hml]

/-- C8: the multi-gpu setup partitions the corpus into ngpu residue-class
shards (enumeration index i goes to device i
mod ngpu) whose multiset union is exactly the corpus, and each device's
batch list is padded to the target length by cyclically re-reading its
own earliest entries, so every padded shard has exactly maxlen batches. -/
theorem C8_multi_gpu_sharding :
    (∀ (train_json : List Utt) (ngpu : Nat), 0 < ngpu →
      (((List.range ngpu).map (fun gid => train_json_subset train_json ngpu gid)).flatten).Perm
        train_json) ∧
    (∀ (α : Type) (shard : List α) (d : α) (maxlen : Nat), shard ≠ [] →
      shard.length ≤ maxlen →
      (equalize_subset shard d maxlen).length = maxlen ∧
      ∀ j, j < maxlen → (equalize_subset shard d maxlen)[j]? = shard[j % shard.length]?) := by
  constructor
  · intro train_json ngpu hg
    unfold train_json_subset
    exact shards_perm ngpu hg train_json 0
  · intro α shard d maxlen hne hle
    obtain ⟨hlen, hget⟩ := equalize_invariant shard d hne (maxlen - shard.length)
    unfold equalize_subset
    constructor
    · rw [hlen]
      omega
    · intro j hj
      exact hget j (by omega)

/-- Witness for C8: three utterances over two devices shard as indices
{0, 2} and {1}, whose union is the corpus; a 2-batch shard padded to
length 5 cycles through its own entries. -/
theorem C8_witness :
    ((((List.range 2).map (fun gid => train_json_subset exCorpus4 2 gid)).flatten).Perm
      exCorpus4) ∧
    (equalize_subset [10, 20] 0 5).length = 5 ∧
    (equalize_subset [10, 20] 0 5)[4]? = ([10, 20] : List Nat)[4 % 2]? :=
  ⟨C8_multi_gpu_sharding.1 exCorpus4 2 (by omega),
    (C8_multi_gpu_sharding.2 Nat [10, 20] 0 5 (by simp) (by simp)).1,
    (C8_multi_gpu_sharding.2 Nat [10, 20] 0 5 (by simp) (by simp)).2 4 (by omega)⟩

/-- One-step unfolding of the batch loop in terms of window_core and
pad_minibatch. -/
theorem batchLoop_succ (sd : List Utt) (bsz mli mlo : Nat) (key : String) (mbs : Nat)
    (sf : Bool) (rng : Nat → Nat) (fuel start ctr : Nat) :
    batchLoop sd bsz mli mlo key mbs sf rng (fuel + 1) start ctr =
      if key ≠ "shuffle" ∧ sd.length ≤ start then
        Except.error BatchsetError.indexOutOfRange
      else
        match pad_minibatch sd mbs sf rng start ctr
            (window_core sd bsz mli mlo key sf start) with
        | Except.error e => Except.error e
        | Except.ok (mb, ctr2) =>
          if min sd.length (start + window_bs sd bsz mli mlo key start) = sd.length then
            Except.ok [mb]
          else
            match batchLoop sd bsz mli mlo key mbs sf rng fuel
                (min sd.length (start + window_bs sd bsz mli mlo key start)) ctr2 with
            | Except.error e => Except.error e
            | Except.ok rest => Except.ok (mb :: rest) := rfl

/-- Master decomposition of a successful batch loop run: every returned
minibatch is the (possibly reversed) window at some start offset s at or
after the loop entry offset, followed by padding entries looked up at
sampled indices all strictly below s; the padding has size
mod = min_batch_size - len % min_batch_size exactly when the window
underflows and is empty otherwise, and every minibatch reaches
min_batch_size. -/
theorem batchLoop_spec (sd : List Utt) (bsz mli mlo : Nat) (key : String) (mbs : Nat)
    (sf : Bool) (rng : Nat → Nat) :
    ∀ (fuel start ctr : Nat) (bs : List (List Utt)),
      batchLoop sd bsz mli mlo key mbs sf rng fuel start ctr = Except.ok bs →
      ∀ b ∈ bs, ∃ s idxs, start ≤ s ∧ (key ≠ "shuffle" → s < sd.length) ∧
        mbs ≤ b.length ∧ (∀ i ∈ idxs, i < s) ∧
        b = window_core sd bsz mli mlo key sf s ++
          (if sf then (idxs.map (fun i => sd.getD i dummyUtt)).reverse
           else idxs.map (fun i => sd.getD i dummyUtt)) ∧
        ((window_core sd bsz mli mlo key sf s).length < mbs →
          idxs.length = mbs - (window_core sd bsz mli mlo key sf s).length % mbs) ∧
        (mbs ≤ (window_core sd bsz mli mlo key sf s).length → idxs = []) := by
  intro fuel
  induction fuel with
  | zero => intro start ctr bs h; cases h
  | succ fuel ih =>
    intro start ctr bs h
    rw [batchLoop_succ] at h
    split at h
    · cases h
    · rename_i hguard
      cases hp : pad_minibatch sd mbs sf rng start ctr
          (window_core sd bsz mli mlo key sf start) with
      | error e => rw [hp] at h; cases h
      | ok p =>
        obtain ⟨mb, ctr2⟩ := p
        rw [hp] at h
        dsimp only at h
        have hstart_lt : key ≠ "shuffle" → start < sd.length := by
          intro hk
          by_contra hge
          exact hguard ⟨hk, Nat.le_of_not_lt hge⟩
        have hmb : ∃ s idxs, start ≤ s ∧ (key ≠ "shuffle" → s < sd.length) ∧
            mbs ≤ mb.length ∧ (∀ i ∈ idxs, i < s) ∧
            mb = window_core sd bsz mli mlo key sf s ++
              (if sf then (idxs.map (fun i => sd.getD i dummyUtt)).reverse
               else idxs.map (fun i => sd.getD i dummyUtt)) ∧
            ((window_core sd bsz mli mlo key sf s).length < mbs →
              idxs.length = mbs - (window_core sd bsz mli mlo key sf s).length % mbs) ∧
            (mbs ≤ (window_core sd bsz mli mlo key sf s).length → idxs = []) := by
          obtain ⟨idxs, hmem, hdec, hlt, hge⟩ := pad_minibatch_ok_decomp hp
          exact ⟨start, idxs, Nat.le_refl _, hstart_lt, pad_minibatch_ok_length hp,
            hmem, hdec, hlt, hge⟩
        by_cases hend : min sd.length (start + window_bs sd bsz mli mlo key start) = sd.length
        · rw [if_pos hend] at h
          cases h
          intro b hb
          rw [List.mem_singleton] at hb
          subst hb
          exact hmb
        · rw [if_neg hend] at h
          cases hrec : batchLoop sd bsz mli mlo key mbs sf rng fuel
              (min sd.length (start + window_bs sd bsz mli mlo key start)) ctr2 with
          | error e => rw [hrec] at h; cases h
          | ok rest =>
            rw [hrec] at h
            cases h
            intro b hb
            rw [List.mem_cons] at hb
            cases hb with
            | inl hbmb => subst hbmb; exact hmb
            | inr hbrest =>
              obtain ⟨s, idxs, hs, hrest⟩ := ih _ ctr2 rest hrec b hbrest
              have hstep : start ≤ min sd.length (start + window_bs sd bsz mli mlo key start) := by
                omega
              exact ⟨s, idxs, Nat.le_trans hstep hs, hrest⟩

/-- For the sorted keys the window width is always at least 1: the code
takes max(1, ...). -/
theorem window_bs_pos (sd : List Utt) (bsz mli mlo : Nat) (key : String) (start : Nat)
    (hkey : key ≠ "shuffle") : 1 ≤ window_bs sd bsz mli mlo key start := by
  unfold window_bs
  rw [if_neg hkey]
  unfold adaptive_bs
  exact le_max_left 1 _

/-- The window slice has exactly end - start elements. -/
theorem window_core_length (sd : List Utt) (bsz mli mlo : Nat) (key : String) (sf : Bool)
    (start : Nat) :
    (window_core sd bsz mli mlo key sf start).length =
      min sd.length (start + window_bs sd bsz mli mlo key start) - start := by
  unfold window_core
  dsimp only
  cases sf <;>
    simp only [if_true, if_false, Bool.false_eq_true, List.length_reverse, List.length_take,
      List.length_drop] <;>
    omega

/-- With shortest_first = False a nonempty window starts with the sorted
entry at its start offset. -/
theorem window_core_head (sd : List Utt) (bsz mli mlo : Nat) (key : String) (start : Nat)
    (hkey : key ≠ "shuffle") (hlt : start < sd.length) :
    0 < (window_core sd bsz mli mlo key false start).length ∧
    (window_core sd bsz mli mlo key false start).headD dummyUtt = sd.getD start dummyUtt := by
  have hw := window_bs_pos sd bsz mli mlo key start hkey
  have hlen := window_core_length sd bsz mli mlo key false start
  have hpos : 0 < (window_core sd bsz mli mlo key false start).length := by
    rw [hlen]
    omega
  refine ⟨hpos, ?_⟩
  have hget : (window_core sd bsz mli mlo key false start)[0]? = sd[start]? := by
    unfold window_core
    dsimp only
    rw [if_neg (by simp : ¬ (false = true))]
    rw [List.getElem?_take, if_pos (by omega : 0 < min sd.length
      (start + window_bs sd bsz mli mlo key start) - start), List.getElem?_drop,
      Nat.add_zero]
  rw [List.headD_eq_head?_getD, List.head?_eq_getElem?, hget,
    List.getD_eq_getElem?_getD]

/-- Appending padding does not change the head of a nonempty window. -/
theorem headD_append_of_pos {α : Type} (l1 l2 : List α) (d : α) (h : 0 < l1.length) :
    (l1 ++ l2).headD d = l1.headD d := by
  cases l1 with
  | nil => simp at h
  | cons x t => rfl

/-- Conversion from the total getD indexing to proof-carrying indexing. -/
theorem getD_eq_getElem_of_lt (sd : List Utt) (i : Nat) (hi : i < sd.length) :
    sd.getD i dummyUtt = sd[i] := by
  rw [List.getD_eq_getElem?_getD, List.getElem?_eq_getElem hi]
  rfl

/-- For a descending-sorted corpus and shortest_first = False, the loop
always returns a nonempty batch list whose first batch starts with the
entry at the loop start offset, and whose successive batch heads have
non-increasing ilen sort keys. -/
theorem batchLoop_chain (sd : List Utt) (bsz mli mlo mbs : Nat) (key : String)
    (rng : Nat → Nat) (hkey : key ≠ "shuffle")
    (hsort : List.Pairwise geIlen sd) :
    ∀ (fuel start ctr : Nat) (bs : List (List Utt)),
      batchLoop sd bsz mli mlo key mbs false rng fuel start ctr = Except.ok bs →
      bs ≠ [] ∧ (bs.headD []).headD dummyUtt = sd.getD start dummyUtt ∧
      List.Chain' (fun a b => b ≤ a)
        (bs.map (fun b => uttIlen (b.headD dummyUtt))) := by
  intro fuel
  induction fuel with
  | zero => intro start ctr bs h; cases h
  | succ fuel ih =>
    intro start ctr bs h
    rw [batchLoop_succ] at h
    split at h
    · cases h
    · rename_i hguard
      have hlt : start < sd.length := by
        by_contra hge
        exact hguard ⟨hkey, Nat.le_of_not_lt hge⟩
      cases hp : pad_minibatch sd mbs false rng start ctr
          (window_core sd bsz mli mlo key false start) with
      | error e => rw [hp] at h; cases h
      | ok p =>
        obtain ⟨mb, ctr2⟩ := p
        rw [hp] at h
        dsimp only at h
        obtain ⟨hwpos, hwhead⟩ := window_core_head sd bsz mli mlo key start hkey hlt
        have hmbhead : mb.headD dummyUtt = sd.getD start dummyUtt := by
          obtain ⟨idxs, _, hdec, _, _⟩ := pad_minibatch_ok_decomp hp
          rw [hdec, headD_append_of_pos _ _ _ hwpos, hwhead]
        by_cases hend : min sd.length (start + window_bs sd bsz mli mlo key start) = sd.length
        · rw [if_pos hend] at h
          cases h
          refine ⟨by simp, by simpa using hmbhead, ?_⟩
          simp only [List.map_cons, List.map_nil]
          exact List.chain'_singleton _
        · rw [if_neg hend] at h
          cases hrec : batchLoop sd bsz mli mlo key mbs false rng fuel
              (min sd.length (start + window_bs sd bsz mli mlo key start)) ctr2 with
          | error e => rw [hrec] at h; cases h
          | ok rest =>
            rw [hrec] at h
            cases h
            obtain ⟨hrne, hrhead, hrchain⟩ := ih _ ctr2 rest hrec
            refine ⟨by simp, by simpa using hmbhead, ?_⟩
            rw [List.map_cons, List.chain'_cons']
            refine ⟨?_, hrchain⟩
            intro y hy
            have hw := window_bs_pos sd bsz mli mlo key start hkey
            have hminle : min sd.length (start + window_bs sd bsz mli mlo key start) ≤
                sd.length := Nat.min_le_left _ _
            have he2 : min sd.length (start + window_bs sd bsz mli mlo key start) <
                sd.length := by omega
            have he1 : start < min sd.length (start + window_bs sd bsz mli mlo key start) := by
              omega
            cases rest with
            | nil => exact absurd rfl hrne
            | cons r0 rtail =>
              simp only [List.map_cons, List.head?_cons, Option.mem_def,
                Option.some_inj] at hy
              subst hy
              have hr0 : r0.headD dummyUtt =
                  sd.getD (min sd.length (start + window_bs sd bsz mli mlo key start))
                    dummyUtt := by
                simpa using hrhead
              rw [hr0, hmbhead, getD_eq_getElem_of_lt sd _ he2,
                getD_eq_getElem_of_lt sd start hlt]
              exact List.pairwise_iff_getElem.mp hsort start _ hlt he2 he1

/-- From any positive start offset the loop always succeeds, given enough
fuel and a positive window width: later padding draws have a nonempty
range. -/
theorem batchLoop_ok_of_pos (sd : List Utt) (bsz mli mlo : Nat) (key : String) (mbs : Nat)
    (sf : Bool) (rng : Nat → Nat)
    (hw : ∀ s, 1 ≤ window_bs sd bsz mli mlo key s) :
    ∀ (fuel start ctr : Nat), 0 < start → start < sd.length → sd.length - start ≤ fuel →
      ∃ bs, batchLoop sd bsz mli mlo key mbs sf rng fuel start ctr = Except.ok bs := by
  intro fuel
  induction fuel with
  | zero => intro start ctr h0 hlt hfuel; omega
  | succ fuel ih =>
    intro start ctr h0 hlt hfuel
    rw [batchLoop_succ]
    rw [if_neg (fun hc => absurd hc.2 (Nat.not_le.mpr hlt))]
    obtain ⟨mb, ctr2, hp⟩ := @pad_minibatch_ok_of_pos sd mbs sf rng start ctr
      (window_core sd bsz mli mlo key sf start) h0
    rw [hp]
    dsimp only
    by_cases hend : min sd.length (start + window_bs sd bsz mli mlo key start) = sd.length
    · rw [if_pos hend]
      exact ⟨[mb], rfl⟩
    · rw [if_neg hend]
      have hws := hw start
      have he1 : start < min sd.length (start + window_bs sd bsz mli mlo key start) := by
        omega
      have he2 : min sd.length (start + window_bs sd bsz mli mlo key start) < sd.length := by
        omega
      obtain ⟨rest, hrest⟩ := ih (min sd.length (start + window_bs sd bsz mli mlo key start))
        ctr2 (by omega) he2 (by omega)
      rw [hrest]
      exact ⟨mb :: rest, rfl⟩

/-- When the first window already reaches min_batch_size the whole loop
from offset 0 succeeds. -/
theorem batchLoop_ok_first (sd : List Utt) (bsz mli mlo : Nat) (key : String) (mbs : Nat)
    (sf : Bool) (rng : Nat → Nat)
    (hw : ∀ s, 1 ≤ window_bs sd bsz mli mlo key s) (hmbs : 1 ≤ mbs)
    (hfirst : mbs ≤ min sd.length (window_bs sd bsz mli mlo key 0)) :
    ∀ fuel, sd.length ≤ fuel →
      ∃ bs, batchLoop sd bsz mli mlo key mbs sf rng fuel 0 0 = Except.ok bs := by
  intro fuel hfuel
  have hlen : 0 < sd.length := by
    have := Nat.min_le_left sd.length (window_bs sd bsz mli mlo key 0)
    omega
  cases fuel with
  | zero => omega
  | succ fuel =>
    rw [batchLoop_succ]
    rw [if_neg (fun hc => absurd hc.2 (Nat.not_le.mpr hlen))]
    have hwc : mbs ≤ (window_core sd bsz mli mlo key sf 0).length := by
      rw [window_core_length]
      omega
    rw [pad_minibatch_ok_of_ge hwc]
    dsimp only
    by_cases hend : min sd.length (0 + window_bs sd bsz mli mlo key 0) = sd.length
    · rw [if_pos hend]
      exact ⟨_, rfl⟩
    · rw [if_neg hend]
      have he1 : 0 < min sd.length (0 + window_bs sd bsz mli mlo key 0) := by
        have := hw 0
        omega
      have he2 : min sd.length (0 + window_bs sd bsz mli mlo key 0) < sd.length := by
        omega
      obtain ⟨rest, hrest⟩ := batchLoop_ok_of_pos sd bsz mli mlo key mbs sf rng hw fuel
        (min sd.length (0 + window_bs sd bsz mli mlo key 0)) 0 he1 he2 (by omega)
      rw [hrest]
      exact ⟨_, rfl⟩

/-- In shuffle mode with batch-aligned windows (every window reaches
min_batch_size), the loop from a bsz-aligned offset succeeds with no
padding and its minibatches concatenate, up to the shortest_first
per-batch reversal, to the tail of the shuffled corpus. -/
theorem batchLoop_shuffle_flatten (sd : List Utt) (bsz mli mlo mbs : Nat) (sf : Bool)
    (rng : Nat → Nat) (hbsz : 1 ≤ bsz) (hmbs_le : mbs ≤ bsz)
    (hmod : sd.length % bsz = 0 ∨ mbs ≤ sd.length % bsz) :
    ∀ (fuel start ctr : Nat), start < sd.length → bsz ∣ start → sd.length - start ≤ fuel →
      ∃ bs, batchLoop sd bsz mli mlo "shuffle" mbs sf rng fuel start ctr = Except.ok bs ∧
        bs.flatten.Perm (sd.drop start) := by
  intro fuel
  induction fuel with
  | zero => intro start ctr hlt _ hfuel; omega
  | succ fuel ih =>
    intro start ctr hlt hdvd hfuel
    have hwbs : window_bs sd bsz mli mlo "shuffle" start = bsz := by
      unfold window_bs
      rw [if_pos rfl]
    have hwin : mbs ≤ min sd.length (start + bsz) - start := by
      rcases Nat.lt_or_ge (sd.length - start) bsz with hcase | hcase
      · obtain ⟨q, rfl⟩ := hdvd
        have hr : sd.length % bsz = sd.length - bsz * q := by
          have hsplit : sd.length = bsz * q + (sd.length - bsz * q) := by omega
          calc sd.length % bsz = (bsz * q + (sd.length - bsz * q)) % bsz := by rw [← hsplit]
            _ = (sd.length - bsz * q) % bsz := by rw [Nat.mul_add_mod]
            _ = sd.length - bsz * q := Nat.mod_eq_of_lt hcase
        rcases hmod with hz | hge
        · omega
        · omega
      · omega
    rw [batchLoop_succ]
    rw [if_neg (by simp)]
    have hwc : mbs ≤ (window_core sd bsz mli mlo "shuffle" sf start).length := by
      rw [window_core_length, hwbs]
      exact hwin
    rw [pad_minibatch_ok_of_ge hwc]
    dsimp only
    have hcore : (window_core sd bsz mli mlo "shuffle" sf start).Perm
        ((sd.drop start).take (min sd.length (start + bsz) - start)) := by
      unfold window_core
      rw [hwbs]
      dsimp only
      cases sf with
      | false => simp
      | true => exact List.reverse_perm _
    rw [hwbs]
    by_cases hend : min sd.length (start + bsz) = sd.length
    · rw [if_pos hend]
      refine ⟨_, rfl, ?_⟩
      simp only [List.flatten_cons, List.flatten_nil, List.append_nil]
      refine hcore.trans ?_
      have htake : min sd.length (start + bsz) - start = (sd.drop start).length := by
        rw [List.length_drop]
        omega
      rw [htake, List.take_length]
    · rw [if_neg hend]
      have he1 : start < min sd.length (start + bsz) := by omega
      have he2 : min sd.length (start + bsz) < sd.length := by omega
      have heq : min sd.length (start + bsz) = start + bsz := by omega
      obtain ⟨rest, hrest, hperm⟩ := ih (min sd.length (start + bsz)) ctr he2
        (by rw [heq]; exact Nat.dvd_add hdvd (Dvd.intro 1 (by omega))) (by omega)
      rw [hrest]
      refine ⟨_, rfl, ?_⟩
      simp only [List.flatten_cons]
      refine (hcore.append hperm).trans ?_
      have hdropdrop : sd.drop (min sd.length (start + bsz)) =
          (sd.drop start).drop (min sd.length (start + bsz) - start) := by
        rw [List.drop_drop]
        congr 1
        omega
      rw [hdropdrop, List.take_append_drop]

/-- Inversion of a successful make_batchset run into its loop run. -/
theorem make_batchset_ok_inv {data shuffled : List Utt} {bsz mli mlo nb : Nat}
    {key : String} {mbs : Nat} {sf : Bool} {rng : Nat → Nat} {bs : List (List Utt)}
    {sd0 : List Utt}
    (hsorted : sorted_for data key sf shuffled = Except.ok sd0)
    (h : make_batchset data bsz mli mlo nb key mbs sf shuffled rng = Except.ok bs) :
    ∃ mbss, batchLoop sd0 bsz mli mlo key mbs sf rng (sd0.length + 1) 0 0 = Except.ok mbss ∧
      bs = (if 0 < nb then mbss.take nb else mbss) ∧ ¬ sd0.length < mbs := by
  unfold make_batchset at h
  rw [hsorted] at h
  dsimp only at h
  by_cases hcorpus : sd0.length < mbs
  · rw [if_pos hcorpus] at h
    cases h
  · rw [if_neg hcorpus] at h
    cases hloop : batchLoop sd0 bsz mli mlo key mbs sf rng (sd0.length + 1) 0 0 with
    | error e => rw [hloop] at h; cases h
    | ok mbss =>
      rw [hloop] at h
      cases h
      exact ⟨mbss, rfl, rfl, hcorpus⟩

/-- Assembling a make_batchset result from a successful loop run. -/
theorem make_batchset_eq_of_loop {data shuffled : List Utt} {bsz mli mlo nb : Nat}
    {key : String} {mbs : Nat} {sf : Bool} {rng : Nat → Nat} {mbss : List (List Utt)}
    {sd0 : List Utt}
    (hsorted : sorted_for data key sf shuffled = Except.ok sd0)
    (hcorpus : ¬ sd0.length < mbs)
    (hloop : batchLoop sd0 bsz mli mlo key mbs sf rng (sd0.length + 1) 0 0 = Except.ok mbss) :
    make_batchset data bsz mli mlo nb key mbs sf shuffled rng =
      Except.ok (if 0 < nb then mbss.take nb else mbss) := by
  unfold make_batchset
  rw [hsorted]
  dsimp only
  rw [if_neg hcorpus, hloop]

/-- C2: every minibatch make_batchset returns has at least min_batch_size
elements; an underfull window is padded with exactly
mod = min_batch_size - len % min_batch_size sampled utterance entries,
appended after the (possibly reversed) window, and every padding entry is
looked up at an index strictly below the batch's own start offset. -/
theorem C2_min_batch_size_padding
    (data shuffled : List Utt) (bsz mli mlo nb : Nat) (key : String) (mbs : Nat)
    (sf : Bool) (rng : Nat → Nat) (bs : List (List Utt)) (sd0 : List Utt)
    (hsorted : sorted_for data key sf shuffled = Except.ok sd0)
    (h : make_batchset data bsz mli mlo nb key mbs sf shuffled rng = Except.ok bs) :
    ∀ b ∈ bs, mbs ≤ b.length ∧
      ∃ s idxs, (∀ i ∈ idxs, i < s) ∧
        b = window_core sd0 bsz mli mlo key sf s ++
          (if sf then (idxs.map (fun i => sd0.getD i dummyUtt)).reverse
           else idxs.map (fun i => sd0.getD i dummyUtt)) ∧
        ((window_core sd0 bsz mli mlo key sf s).length < mbs →
          idxs.length = mbs - (window_core sd0 bsz mli mlo key sf s).length % mbs) ∧
        (mbs ≤ (window_core sd0 bsz mli mlo key sf s).length → idxs = []) := by
  intro b hb
  obtain ⟨mbss, hloop, hbs, _⟩ := make_batchset_ok_inv hsorted h
  rw [hbs] at hb
  have hbmem : b ∈ mbss := by
    by_cases hnb : 0 < nb
    · rw [if_pos hnb] at hb
      exact List.take_subset _ _ hb
    · rw [if_neg hnb] at hb
      exact hb
  obtain ⟨s, idxs, _, _, hlen, hmem, hdec, hlt, hge⟩ :=
    batchLoop_spec sd0 bsz mli mlo key mbs sf rng _ 0 0 mbss hloop b hbmem
  exact ⟨hlen, s, idxs, hmem, hdec, hlt, hge⟩

/-- C1: for the adaptive sort keys, every minibatch of make_batchset is a
window whose width is the effective batch size
max(1, batch_size / (1 + factor)) with
factor = max(ilen / max_length_in, olen / max_length_out) read off the
window's first (longest) element; on the spec's two-utterance corpus,
max_length_in = 1000 yields the single minibatch [u1, u2] and
max_length_in = 40 yields the two minibatches [u1], [u2]. -/
theorem C1_adaptive_batch_size :
    (∀ (data shuffled : List Utt) (bsz mli mlo nb mbs : Nat) (sf : Bool) (rng : Nat → Nat)
      (key : String) (bs : List (List Utt)) (sd0 : List Utt),
      key = "input" ∨ key = "output" →
      sorted_for data key sf shuffled = Except.ok sd0 →
      make_batchset data bsz mli mlo nb key mbs sf shuffled rng = Except.ok bs →
      ∀ b ∈ bs, ∃ (s : Nat) (idxs : List Nat),
        s < sd0.length ∧ (∀ i ∈ idxs, i < s) ∧
        b = window_core sd0 bsz mli mlo key sf s ++
          (if sf then (idxs.map (fun i => sd0.getD i dummyUtt)).reverse
           else idxs.map (fun i => sd0.getD i dummyUtt)) ∧
        window_bs sd0 bsz mli mlo key s =
          max 1 (bsz / (1 + max (uttIlen (sd0.getD s dummyUtt) / mli)
            (uttOlen (sd0.getD s dummyUtt) / mlo)))) ∧
    make_batchset exCorpus2 2 1000 1000 0 "input" 1 false exCorpus2 rngZero =
      Except.ok [[exU1, exU2]] ∧
    make_batchset exCorpus2 2 40 1000 0 "input" 1 false exCorpus2 rngZero =
      Except.ok [[exU1], [exU2]] := by
  refine ⟨?_, by decide, by decide⟩
  intro data shuffled bsz mli mlo nb mbs sf rng key bs sd0 hkey hsorted h b hb
  have hne : key ≠ "shuffle" := by
    rcases hkey with rfl | rfl <;> decide
  obtain ⟨mbss, hloop, hbs, _⟩ := make_batchset_ok_inv hsorted h
  rw [hbs] at hb
  have hbmem : b ∈ mbss := by
    by_cases hnb : 0 < nb
    · rw [if_pos hnb] at hb
      exact List.take_subset _ _ hb
    · rw [if_neg hnb] at hb
      exact hb
  obtain ⟨s, idxs, _, hslt, _, hmem, hdec, _, _⟩ :=
    batchLoop_spec sd0 bsz mli mlo key mbs sf rng _ 0 0 mbss hloop b hbmem
  refine ⟨s, idxs, hslt hne, hmem, hdec, ?_⟩
  unfold window_bs
  rw [if_neg hne]
  rfl

/-- C5: for batch_sort_key = input with shortest_first = False, the sort
key of the first utterance of each minibatch — which, per the documented
field swap, is read from the record's JSON 'output' shape — is
non-increasing from each minibatch to the next. -/
theorem C5_descending_batch_heads (data shuffled : List Utt) (bsz mli mlo nb mbs : Nat)
    (rng : Nat → Nat) (bs : List (List Utt))
    (h : make_batchset data bsz mli mlo nb "input" mbs false shuffled rng = Except.ok bs) :
    List.Chain' (fun a b => b ≤ a) (bs.map (fun b => uttIlen (b.headD dummyUtt))) := by
  have hsorted : sorted_for data "input" false shuffled =
      Except.ok (List.insertionSort geIlen data) := rfl
  obtain ⟨mbss, hloop, hbs, _⟩ := make_batchset_ok_inv hsorted h
  have hsort : List.Pairwise geIlen (List.insertionSort geIlen data) :=
    List.sorted_insertionSort geIlen data
  have hchain := (batchLoop_chain _ bsz mli mlo mbs "input" rng (by decide) hsort
    _ 0 0 mbss hloop).2.2
  subst hbs
  by_cases hnb : 0 < nb
  · rw [if_pos hnb, List.map_take]
    exact hchain.take nb
  · rw [if_neg hnb]
    exact hchain

/-- C4 counterexample: a four-utterance corpus (N = 4, a multiple of
min_batch_size = 2) with batch_size = 3 in shuffle mode: the last window
holds one utterance and is padded with a duplicate of an earlier one, so
the multiset union of the minibatches is not the corpus. -/
theorem C4_counterexample :
    make_batchset exCorpus4 3 1 1 0 "shuffle" 2 false exCorpus4 rngZero =
      Except.ok [[mkExU "a", mkExU "b", mkExU "c"], [mkExU "d", mkExU "a"]] ∧
    exCorpus4.length % 2 = 0 ∧
    ¬ ([[mkExU "a", mkExU "b", mkExU "c"], [mkExU "d", mkExU "a"]] :
        List (List Utt)).flatten.Perm exCorpus4 := by
  refine ⟨by decide, by decide, by decide⟩

/-- C4 (amended): in shuffle mode, whenever every window reaches
min_batch_size — that is min_batch_size ≤ batch_size and the final window
N % batch_size is zero or at least min_batch_size — no padding occurs and
the minibatches of the returned plan contain every corpus utterance
exactly once (their concatenation is a permutation of the corpus). -/
theorem C4_amended_shuffle_partition (data shuffled : List Utt)
    (bsz mli mlo mbs : Nat) (sf : Bool) (rng : Nat → Nat)
    (hperm : shuffled.Perm data) (hmbs : 1 ≤ mbs) (hle : mbs ≤ bsz)
    (hmod : data.length % bsz = 0 ∨ mbs ≤ data.length % bsz) (hN : mbs ≤ data.length) :
    ∃ bs, make_batchset data bsz mli mlo 0 "shuffle" mbs sf shuffled rng = Except.ok bs ∧
      bs.flatten.Perm data := by
  have hlen := hperm.length_eq
  have hlt0 : 0 < shuffled.length := by omega
  obtain ⟨bs, hloop, hflat⟩ := batchLoop_shuffle_flatten shuffled bsz mli mlo mbs sf rng
    (by omega) hle (by rw [hlen]; exact hmod) (shuffled.length + 1) 0 0 hlt0
    (dvd_zero bsz) (by omega)
  refine ⟨bs, ?_, ?_⟩
  · have hsh : sorted_for data "shuffle" sf shuffled = Except.ok shuffled := rfl
    have heq := @make_batchset_eq_of_loop data shuffled bsz mli mlo 0 "shuffle" mbs sf rng
      bs shuffled hsh (by omega) hloop
    simpa using heq
  · rw [List.drop_zero] at hflat
    exact hflat.trans hperm

/-- Witness for C4 (amended): four utterances, batch_size = 2,
min_batch_size = 2: two full windows, and their concatenation is a
permutation of the corpus. -/
theorem C4_witness :
    make_batchset exCorpus4 2 1 1 0 "shuffle" 2 false exCorpus4 rngZero =
      Except.ok [[mkExU "a", mkExU "b"], [mkExU "c", mkExU "d"]] ∧
    ([[mkExU "a", mkExU "b"], [mkExU "c", mkExU "d"]] :
      List (List Utt)).flatten.Perm exCorpus4 := by
  obtain ⟨bs, hbs, hflat⟩ := C4_amended_shuffle_partition exCorpus4 exCorpus4 2 1 1 2 false
    rngZero (List.Perm.refl _) (by omega) (by omega) (by decide) (by decide)
  have heval : make_batchset exCorpus4 2 1 1 0 "shuffle" 2 false exCorpus4 rngZero =
      Except.ok [[mkExU "a", mkExU "b"], [mkExU "c", mkExU "d"]] := by decide
  rw [heval] at hbs
  injection hbs with hbs2
  subst hbs2
  exact ⟨heval, hflat⟩

/-- Underlying lemma for C10: with a valid sort key and a corpus of at
least min_batch_size utterances, a first effective window shorter than
min_batch_size drives the padding step into np.random.randint(0, 0, mod),
which raises. -/
theorem make_batchset_first_underflow (data shuffled : List Utt)
    (bsz mli mlo nb mbs : Nat) (sf : Bool) (rng : Nat → Nat) (key : String)
    (sd0 : List Utt) (hsorted : sorted_for data key sf shuffled = Except.ok sd0)
    (hle : mbs ≤ sd0.length)
    (hlt : min sd0.length (window_bs sd0 bsz mli mlo key 0) < mbs) :
    make_batchset data bsz mli mlo nb key mbs sf shuffled rng =
      Except.error BatchsetError.randintEmptyRange := by
  have hmin := Nat.min_le_left sd0.length (window_bs sd0 bsz mli mlo key 0)
  have hlen0 : 0 < sd0.length := by omega
  unfold make_batchset
  rw [hsorted]
  dsimp only
  rw [if_neg (Nat.not_lt.mpr hle)]
  rw [batchLoop_succ]
  rw [if_neg (fun hc => absurd hc.2 (Nat.not_le.mpr hlen0))]
  have hwc : (window_core sd0 bsz mli mlo key sf 0).length < mbs := by
    rw [window_core_length]
    omega
  rw [pad_minibatch_error_at_zero hwc]

/-- C10: a first window shorter than min_batch_size — reachable in
particular whenever batch_size < min_batch_size ≤ N in shuffle mode, and
whenever the adaptive size falls below min_batch_size for the sorted
keys — makes make_batchset raise from the empty randint range instead of
returning a padded plan. -/
theorem C10_first_batch_underflow_raises :
    (∀ (data shuffled : List Utt) (bsz mli mlo nb mbs : Nat) (sf : Bool)
      (rng : Nat → Nat) (key : String) (sd0 : List Utt),
      sorted_for data key sf shuffled = Except.ok sd0 →
      mbs ≤ sd0.length →
      min sd0.length (window_bs sd0 bsz mli mlo key 0) < mbs →
      make_batchset data bsz mli mlo nb key mbs sf shuffled rng =
        Except.error BatchsetError.randintEmptyRange) ∧
    (∀ (data shuffled : List Utt) (bsz mli mlo nb mbs : Nat) (sf : Bool)
      (rng : Nat → Nat),
      shuffled.length = data.length → mbs ≤ data.length → bsz < mbs →
      make_batchset data bsz mli mlo nb "shuffle" mbs sf shuffled rng =
        Except.error BatchsetError.randintEmptyRange) := by
  constructor
  · exact make_batchset_first_underflow
  · intro data shuffled bsz mli mlo nb mbs sf rng hlen hN hbsz
    have hsh : sorted_for data "shuffle" sf shuffled = Except.ok shuffled := rfl
    refine make_batchset_first_underflow data shuffled bsz mli mlo nb mbs sf rng
      "shuffle" shuffled hsh (by omega) ?_
    have hwbs : window_bs shuffled bsz mli mlo "shuffle" 0 = bsz := by
      unfold window_bs
      rw [if_pos rfl]
    rw [hwbs]
    have := Nat.min_le_right shuffled.length bsz
    omega

/-- Witness for C10: two utterances, batch_size = 1 < min_batch_size = 2:
the first window is short and make_batchset raises. -/
theorem C10_witness :
    make_batchset exCorpus2b 1 5 5 0 "shuffle" 2 false exCorpus2b rngZero =
      Except.error BatchsetError.randintEmptyRange :=
  C10_first_batch_underflow_raises.2 exCorpus2b exCorpus2b 1 5 5 0 2 false rngZero
    rfl (by decide) (by omega)

/-- C6 counterexample to the claim's no-other-error clause: a valid sort
key and a corpus of min_batch_size utterances can still raise, from the
padding step, when batch_size is small (here batch_size = 1,
min_batch_size = 2, N = 2). -/
theorem C6_counterexample :
    make_batchset exCorpus2b 1 1 1 0 "shuffle" 2 false exCorpus2b rngZero =
      Except.error BatchsetError.randintEmptyRange ∧
    ¬ exCorpus2b.length < 2 := by
  refine ⟨by decide, by decide⟩

/-- C6 (amended): an unrecognized sort key raises the sort-key error, and
does so before the corpus-size check (it fires for every corpus, also
too-small ones); a valid key with fewer utterances than min_batch_size
raises the corpus error; with a valid key, enough utterances and a first
effective window of at least min_batch_size ≥ 1 no error is raised (an
underfull first window can still raise, see C10). -/
theorem C6_validation_errors :
    (∀ (data shuffled : List Utt) (bsz mli mlo nb mbs : Nat) (sf : Bool)
      (rng : Nat → Nat) (key : String),
      key ≠ "shuffle" → key ≠ "input" → key ≠ "output" →
      make_batchset data bsz mli mlo nb key mbs sf shuffled rng =
        Except.error BatchsetError.invalidSortKey) ∧
    (∀ (data shuffled : List Utt) (bsz mli mlo nb mbs : Nat) (sf : Bool)
      (rng : Nat → Nat) (key : String) (sd0 : List Utt),
      sorted_for data key sf shuffled = Except.ok sd0 → sd0.length < mbs →
      make_batchset data bsz mli mlo nb key mbs sf shuffled rng =
        Except.error BatchsetError.corpusTooSmall) ∧
    (∀ (data shuffled : List Utt) (bsz mli mlo nb mbs : Nat) (sf : Bool)
      (rng : Nat → Nat) (key : String) (sd0 : List Utt),
      sorted_for data key sf shuffled = Except.ok sd0 →
      1 ≤ mbs → mbs ≤ min sd0.length (window_bs sd0 bsz mli mlo key 0) →
      ∃ bs, make_batchset data bsz mli mlo nb key mbs sf shuffled rng = Except.ok bs) := by
  refine ⟨?_, ?_, ?_⟩
  · intro data shuffled bsz mli mlo nb mbs sf rng key h1 h2 h3
    unfold make_batchset sorted_for
    rw [if_neg h1, if_neg h2, if_neg h3]
  · intro data shuffled bsz mli mlo nb mbs sf rng key sd0 hsorted hlt
    unfold make_batchset
    rw [hsorted]
    dsimp only
    rw [if_pos hlt]
  · intro data shuffled bsz mli mlo nb mbs sf rng key sd0 hsorted hmbs hfirst
    have hw : ∀ s, 1 ≤ window_bs sd0 bsz mli mlo key s := by
      intro s
      by_cases hk : key = "shuffle"
      · subst hk
        have hwbs : ∀ t, window_bs sd0 bsz mli mlo "shuffle" t = bsz := by
          intro t
          unfold window_bs
          rw [if_pos rfl]
        rw [hwbs]
        have := hwbs 0
        rw [this] at hfirst
        have := Nat.min_le_right sd0.length bsz
        omega
      · exact window_bs_pos sd0 bsz mli mlo key s hk
    obtain ⟨mbss, hloop⟩ := batchLoop_ok_first sd0 bsz mli mlo key mbs sf rng hw hmbs
      hfirst (sd0.length + 1) (by omega)
    have hmin := Nat.min_le_left sd0.length (window_bs sd0 bsz mli mlo key 0)
    exact ⟨_, make_batchset_eq_of_loop hsorted (by omega) hloop⟩

/-- Witness for C6: the bad key raises the sort-key error even on a
too-small corpus; a singleton corpus with min_batch_size 2 raises the
corpus error; the example corpus with batch_size 2 and min_batch_size 1
returns a plan. -/
theorem C6_witness :
    make_batchset [] 2 5 5 0 "badkey" 2 false [] rngZero =
      Except.error BatchsetError.invalidSortKey ∧
    make_batchset [mkExU "a"] 2 5 5 0 "shuffle" 2 false [mkExU "a"] rngZero =
      Except.error BatchsetError.corpusTooSmall ∧
    ∃ bs, make_batchset exCorpus2b 2 5 5 0 "shuffle" 1 false exCorpus2b rngZero =
      Except.ok bs := by
  refine ⟨?_, ?_, ?_⟩
  · exact C6_validation_errors.1 [] [] 2 5 5 0 2 false rngZero "badkey"
      (by decide) (by decide) (by decide)
  · exact C6_validation_errors.2.1 [mkExU "a"] [mkExU "a"] 2 5 5 0 2 false rngZero
      "shuffle" [mkExU "a"] rfl (by decide)
  · exact C6_validation_errors.2.2 exCorpus2b exCorpus2b 2 5 5 0 1 false rngZero
      "shuffle" exCorpus2b rfl (by omega) (by decide)

/-- Witness for C1: on the example corpus with max_length_in = 1000 the
single minibatch [u1, u2] is the window at offset 0 with the adaptive
width formula. -/
theorem C1_witness :
    ∃ (s : Nat) (idxs : List Nat),
      s < (sortByInput exCorpus2 false).length ∧ (∀ i ∈ idxs, i < s) ∧
      ([exU1, exU2] : List Utt) =
        window_core (sortByInput exCorpus2 false) 2 1000 1000 "input" false s ++
        (if (false : Bool) then
          (idxs.map (fun i => (sortByInput exCorpus2 false).getD i dummyUtt)).reverse
         else idxs.map (fun i => (sortByInput exCorpus2 false).getD i dummyUtt)) ∧
      window_bs (sortByInput exCorpus2 false) 2 1000 1000 "input" s =
        max 1 (2 / (1 + max (uttIlen ((sortByInput exCorpus2 false).getD s dummyUtt) / 1000)
          (uttOlen ((sortByInput exCorpus2 false).getD s dummyUtt) / 1000))) :=
  C1_adaptive_batch_size.1 exCorpus2 exCorpus2 2 1000 1000 0 1 false rngZero "input"
    [[exU1, exU2]] (sortByInput exCorpus2 false) (Or.inl rfl) rfl
    C1_adaptive_batch_size.2.1 [exU1, exU2] (List.mem_singleton.mpr rfl)

/-- Witness for C2: in the padded batch [d, a] of the four-utterance
shuffle example the padding index lies strictly below the batch's start
offset and has size mod = 2 - 1 % 2 = 1. -/
theorem C2_witness :
    2 ≤ ([mkExU "d", mkExU "a"] : List Utt).length ∧
    ∃ (s : Nat) (idxs : List Nat), (∀ i ∈ idxs, i < s) ∧
      ([mkExU "d", mkExU "a"] : List Utt) =
        window_core exCorpus4 3 1 1 "shuffle" false s ++
        (if (false : Bool) then
          (idxs.map (fun i => exCorpus4.getD i dummyUtt)).reverse
         else idxs.map (fun i => exCorpus4.getD i dummyUtt)) ∧
      ((window_core exCorpus4 3 1 1 "shuffle" false s).length < 2 →
        idxs.length = 2 - (window_core exCorpus4 3 1 1 "shuffle" false s).length % 2) ∧
      (2 ≤ (window_core exCorpus4 3 1 1 "shuffle" false s).length → idxs = []) :=
  C2_min_batch_size_padding exCorpus4 exCorpus4 3 1 1 0 "shuffle" 2 false rngZero
    [[mkExU "a", mkExU "b", mkExU "c"], [mkExU "d", mkExU "a"]] exCorpus4 rfl
    (by decide) [mkExU "d", mkExU "a"] (by decide)

/-- Witness for C5: the two-batch plan of the example corpus has
descending head ilens 100, 50. -/
theorem C5_witness :
    List.Chain' (fun a b => b ≤ a)
      (([[exU1], [exU2]] : List (List Utt)).map (fun b => uttIlen (b.headD dummyUtt))) :=
  C5_descending_batch_heads exCorpus2 exCorpus2 2 40 1000 0 1 rngZero [[exU1], [exU2]]
    (by decide)
